import Mathlib

/-!
# redis-inventory: key scanning service and scan orchestrator

A shallow embedding of `src/adapter/rservice.go` (`RedisService.ScanKeys`) and
`src/scanner/scanner.go` (`RedisScanner.Scan`).

* The store is a script of replies, one `PageReply` per iteration of the scanning
  loop: the reply to the `SCAN` round trip and the reply to the pipelined
  `MEMORY USAGE` round trip of that iteration.
* The result channel is the list of values sent on it, in order. `ScanKeys`
  first allocates the channel with capacity `ScanCount * 2`, which panics when
  that capacity is negative, and then starts the goroutine `scanGoroutine`, whose
  loop is `scanLoop`. Scheduling, the bound the run time puts on the size of an
  allocation and the duration of `time.Sleep` are not part of the model.
* Go `int`/`int64` values are `Int`. The `int64` product in `Scan` wraps
  (`mulInt64`). `len(keys) * 100` is exact: a slice length is bounded by the
  address space, far below `2^63 / 100`.
* A run-time panic is a `Fault`; nothing happens after it.
-/

namespace RedisInventory

/-! ## Machine integers -/

/-- Two's-complement wrap of an integer into the `int64` range. -/
def wrapInt64 (x : Int) : Int :=
  (x + 9223372036854775808) % 18446744073709551616 - 9223372036854775808

/-- Membership in the `int64` range. -/
def isInt64 (x : Int) : Prop :=
  -9223372036854775808 ≤ x ∧ x < 9223372036854775808

instance (x : Int) : Decidable (isInt64 x) := by
  unfold isInt64; infer_instance

/-- Go `a * b` on `int64`. -/
def mulInt64 (a b : Int) : Int :=
  wrapInt64 (a * b)

/-! ## Data model -/

/-- Run-time panics reachable in the modelled code: integer division by zero,
index out of range, `make` of a slice with a negative length, `make` of a
channel with a negative capacity. -/
inductive Fault where
  | divideByZero
  | indexOutOfRange
  | makeSliceLen
  | makeChanSize
  deriving DecidableEq, Repr

/-- Options for scanning the keyspace (`adapter.ScanOptions`). -/
structure ScanOptions where
  Pattern : String
  ScanCount : Int
  Throttle : Int
  SamplePerc : Int
  deriving DecidableEq, Repr

/-- One page of results (`adapter.BulkKeyInfo`). -/
structure BulkKeyInfo where
  Keys : List String
  Sizes : List Int
  deriving DecidableEq, Repr

/-- What the store answers during one iteration of the scanning loop.
`scan` is the reply to `SCAN`: an error, or the next cursor and the page of keys.
`usage` holds the integers that the replies to the pipelined `MEMORY USAGE`
commands unmarshal into their receivers, in command order; `usageErr` is the
error returned by that round trip, if any. -/
structure PageReply where
  scan : Except String (String × List String)
  usage : List Int
  usageErr : Option String

/-- Observable steps of the goroutine started by `ScanKeys`. -/
inductive Event where
  | scan (cur : String) (count : Int)
  | usage (keys : List String)
  | failed (msg : String)
  | emit (b : BulkKeyInfo)
  | sleep (ns : Int)
  deriving DecidableEq, Repr

/-- How a call of `ScanKeys` and the goroutine it starts end: the goroutine
returns and the deferred `close(resultChan)` runs, it waits for a reply the
script does not contain, or there is a panic (in the goroutine, or in `ScanKeys`
itself when the channel is allocated). -/
inductive Outcome where
  | closed
  | awaiting
  | panicked (f : Fault)
  deriving DecidableEq, Repr

/-- A run of `ScanKeys`: the steps of its goroutine in order and how it ends. -/
structure ScanKeysRun where
  events : List Event
  outcome : Outcome
  deriving DecidableEq, Repr

/-! ## `RedisService.ScanKeys` -/

/-- State of the sampling loop over one page (`rservice.go` lines 85-99):
the `ret.Keys` buffer, the commands appended to the pipeline (key and the index
of the `ret.Sizes` slot that receives the reply), and `keyIndex`. -/
structure SampleState where
  Keys : List String
  cmds : List (String × Nat)
  keyIndex : Nat
  deriving DecidableEq, Repr

/-- The loop `for index, key := range scanRes.keys` (`rservice.go` lines 93-99),
started at `index`. -/
def sampleLoop (samplePerc : Int) : List String → Nat → SampleState → Except Fault SampleState
  | [], _, st => .ok st
  | key :: rest, index, st =>
    if ((index : Int) % 100) < samplePerc then
      if st.keyIndex < st.Keys.length then
        sampleLoop samplePerc rest (index + 1)
          { Keys := st.Keys.set st.keyIndex key
            cmds := st.cmds ++ [(key, st.keyIndex)]
            keyIndex := st.keyIndex + 1 }
      else .error Fault.indexOutOfRange
    else sampleLoop samplePerc rest (index + 1) st

/-- Lines 84-99 of `rservice.go`: the buffer length `len(keys) * 100 / SamplePerc`,
the two `make` calls and the sampling loop. The result is the final loop state
and the buffer length. -/
def samplePage (samplePerc : Int) (keys : List String) : Except Fault (SampleState × Nat) :=
  if samplePerc = 0 then .error Fault.divideByZero
  else
    let sampledKeyLength : Int := Int.tdiv ((keys.length : Int) * 100) samplePerc
    if sampledKeyLength < 0 then .error Fault.makeSliceLen
    else
      match sampleLoop samplePerc keys 0
          { Keys := List.replicate sampledKeyLength.toNat "", cmds := [], keyIndex := 0 } with
      | .error f => .error f
      | .ok st => .ok (st, sampledKeyLength.toNat)

/-- Effect of the pipeline round trip on the `ret.Sizes` backing array: the
reply to the `j`-th command is stored through the pointer `&ret.Sizes[slot]`
recorded when the command was appended. -/
def applyUsage (cmds : List (String × Nat)) (usage : List Int) (sizes : List Int) : List Int :=
  (cmds.zip usage).foldl (fun buf cv => buf.set cv.1.2 cv.2) sizes

/-- The page sent on the channel (lines 101-109): both buffers cut to
`keyIndex`; the sizes are those left in the backing array by the pipeline. -/
def pageResult (st : SampleState) (bufLen : Nat) (usage : List Int) : BulkKeyInfo :=
  { Keys := st.Keys.take st.keyIndex
    Sizes := (applyUsage st.cmds usage (List.replicate bufLen 0)).take st.keyIndex }

/-- Put steps in front of a run. -/
def ScanKeysRun.after (es : List Event) (r : ScanKeysRun) : ScanKeysRun :=
  { events := es ++ r.events, outcome := r.outcome }

/-- The `for` loop of the goroutine (`rservice.go` lines 77-118) with the
current cursor `cur`, against the remaining replies of the store. -/
def scanLoop (options : ScanOptions) : String → List PageReply → ScanKeysRun
  | cur, [] => { events := [Event.scan cur options.ScanCount], outcome := Outcome.awaiting }
  | cur, reply :: rest =>
    match reply.scan with
    | .error msg =>
      { events := [Event.scan cur options.ScanCount, Event.failed msg], outcome := Outcome.closed }
    | .ok (next, keys) =>
      match samplePage options.SamplePerc keys with
      | .error f =>
        { events := [Event.scan cur options.ScanCount], outcome := Outcome.panicked f }
      | .ok (st, bufLen) =>
        let ret := pageResult st bufLen reply.usage
        let doPipeline : List Event :=
          Event.usage (st.cmds.map Prod.fst) ::
            (match reply.usageErr with
             | some msg => [Event.failed msg]
             | none => [])
        let sent : List Event :=
          Event.scan cur options.ScanCount :: (doPipeline ++ [Event.emit ret])
        if next = "0" then
          { events := sent, outcome := Outcome.closed }
        else
          let throttle : List Event :=
            if options.Throttle > 0 then [Event.sleep options.Throttle] else []
          (scanLoop options next rest).after (sent ++ throttle)

/-- The goroutine of `ScanKeys` (`rservice.go` lines 73-119): the loop started
with `scanRes.cur = "0"`. -/
def scanGoroutine (options : ScanOptions) (store : List PageReply) : ScanKeysRun :=
  scanLoop options "0" store

/-- `RedisService.ScanKeys` (`rservice.go` lines 66-122):
`make(chan BulkKeyInfo, options.ScanCount*2)` panics when the capacity, an `int`
product, is negative, before the goroutine is started and before any `SCAN`;
otherwise the goroutine runs. The run time also refuses a capacity beyond what
it can allocate; that bound depends on the platform and is not modelled. -/
def ScanKeys (options : ScanOptions) (store : List PageReply) : ScanKeysRun :=
  if wrapInt64 (options.ScanCount * 2) < 0 then
    { events := [], outcome := Outcome.panicked Fault.makeChanSize }
  else scanGoroutine options store

/-- The values sent on the result channel, in order. -/
def emitted : List Event → List BulkKeyInfo
  | [] => []
  | Event.emit b :: es => b :: emitted es
  | _ :: es => emitted es

/-- The cursors of the `SCAN` round trips, in order. -/
def scanCursors : List Event → List String
  | [] => []
  | Event.scan cur _ :: es => cur :: scanCursors es
  | _ :: es => scanCursors es

/-! ## `RedisScanner.Scan` -/

/-- Modelled from the spec: the metric identifiers of package `trie`, whose
source is not present (`trie.BytesSize`, `trie.KeysCount`). -/
inductive Param where
  | BytesSize
  | KeysCount
  deriving DecidableEq, Repr

/-- Modelled from the spec: `trie.ParamValue`, one metric's contribution at
insertion time; the source of package `trie` is not present. -/
structure ParamValue where
  Param : Param
  Value : Int
  deriving DecidableEq, Repr

/-- Modelled from the spec: the calls `Scan` makes on collaborators whose source
is not present, the progress writer `adapter.ProgressWriter` (`Start`,
`Increment`, `Stop`) and the aggregation tree `trie.Trie` (`Add`), together with
its calls on the logger. -/
inductive Call where
  | start (total : Int)
  | increment
  | add (key : String) (values : List ParamValue)
  | debug (key : String) (size : Int)
  | logError (msg : String)
  | stop
  deriving DecidableEq, Repr

/-- A run of `Scan`: its calls in order, and the panic that ended it, if any. -/
structure ScanRun where
  calls : List Call
  fault : Option Fault
  deriving DecidableEq, Repr

/-- Put calls in front of a run. -/
def ScanRun.after (cs : List Call) (r : ScanRun) : ScanRun :=
  { calls := cs ++ r.calls, fault := r.fault }

/-- The loop `for index, key := range keyResult.Keys` (`scanner.go` lines 43-55),
started at `index`. -/
def scanPage (options : ScanOptions) (sizes : List Int) : List String → Nat → ScanRun
  | [], _ => { calls := [], fault := none }
  | key :: rest, index =>
    match sizes.get? index with
    | none => { calls := [Call.increment], fault := some Fault.indexOutOfRange }
    | some size =>
      if options.SamplePerc = 0 then
        { calls := [Call.increment], fault := some Fault.divideByZero }
      else
        let f : Int := Int.tdiv 100 options.SamplePerc
        let dump : List Call := if index % 10 = 0 then [Call.debug key size] else []
        (scanPage options sizes rest (index + 1)).after
          ([Call.increment,
            Call.add key [⟨Param.BytesSize, mulInt64 size f⟩, ⟨Param.KeysCount, f⟩]] ++ dump)

/-- The loop `for keyResult := range ...` (`scanner.go` lines 42-56) over the
values received from the channel. -/
def scanPages (options : ScanOptions) : List BulkKeyInfo → ScanRun
  | [] => { calls := [], fault := none }
  | keyResult :: later =>
    let r := scanPage options keyResult.Sizes keyResult.Keys 0
    match r.fault with
    | some f => { calls := r.calls, fault := some f }
    | none => (scanPages options later).after r.calls

/-- `RedisScanner.getKeysCount` against the reply to `DBSIZE`. -/
def getKeysCount (reply : Except String Int) : List Call × Int :=
  match reply with
  | .error msg => ([Call.logError msg], 0)
  | .ok res => ([], res)

/-- `RedisScanner.Scan` (`scanner.go` lines 35-58) against the reply to `DBSIZE`
and the values received from the channel until it is closed. -/
def Scan (options : ScanOptions) (dbsize : Except String Int) (stream : List BulkKeyInfo) :
    ScanRun :=
  let counted : List Call × Int :=
    if options.Pattern = "*" ∨ options.Pattern = "" then getKeysCount dbsize else ([], 0)
  let begin : List Call :=
    counted.1 ++ [Call.start (Int.tdiv (mulInt64 counted.2 options.SamplePerc) 100)]
  let r := scanPages options stream
  match r.fault with
  | some f => { calls := begin ++ r.calls, fault := some f }
  | none => { calls := begin ++ r.calls ++ [Call.stop], fault := none }

/-- The `Add` calls of a run, in order: key, `BytesSize` value, `KeysCount` value
are read off the arguments. -/
def addCalls : List Call → List (String × List ParamValue)
  | [] => []
  | Call.add key values :: cs => (key, values) :: addCalls cs
  | _ :: cs => addCalls cs

/-- Sum of the values of one metric over a list of `Add` arguments. -/
def paramTotal (p : Param) (values : List ParamValue) : Int :=
  ((values.filter (fun v => decide (v.Param = p))).map (fun v => v.Value)).sum

/-- Sum, over all `Add` calls of a run, of the values passed for one metric:
the total accumulated at the root of the tree. -/
def rootTotal (p : Param) (calls : List Call) : Int :=
  ((addCalls calls).map (fun a => paramTotal p a.2)).sum

/-! ## The sampling rule in closed form -/

/-- The keys of a page selected by systematic sampling, for a page whose first
key has position `index`: those at a position `i` with `i mod 100 < samplePerc`,
in page order. -/
def selectedFrom (samplePerc : Int) (index : Nat) (keys : List String) : List String :=
  ((keys.enumFrom index).filter (fun p => decide ((p.1 : Int) % 100 < samplePerc))).map Prod.snd

/-- The selected keys of a page: the subsequence of the `k_i` with
`i mod 100 < samplePerc`. -/
def selectedKeys (samplePerc : Int) (keys : List String) : List String :=
  selectedFrom samplePerc 0 keys

/-- The sizes measured for `k` commands by a pipeline whose replies left the
values `usage` in the receivers: the reply to the `j`-th command, and `0` (the
initial content of the buffer) where no reply was stored. -/
def measuredSizes (k : Nat) (usage : List Int) : List Int :=
  usage.take k ++ List.replicate (k - usage.length) 0

/-- The page the sampling rule describes: the selected keys with the sizes
measured for them. -/
def sampledPage (samplePerc : Int) (keys : List String) (usage : List Int) : BulkKeyInfo :=
  { Keys := selectedKeys samplePerc keys
    Sizes := measuredSizes (selectedKeys samplePerc keys).length usage }

/-- The steps of one iteration whose `SCAN` succeeded and whose page was
sampled without a fault, in closed form. -/
def pageEvents (options : ScanOptions) (cur : String) (keys : List String) (reply : PageReply) :
    List Event :=
  Event.scan cur options.ScanCount ::
    (Event.usage (selectedKeys options.SamplePerc keys) ::
      (match reply.usageErr with
       | some msg => [Event.failed msg]
       | none => [])
      ++ [Event.emit (sampledPage options.SamplePerc keys reply.usage)])

/-- The pause after a page. -/
def throttleEvents (options : ScanOptions) : List Event :=
  if options.Throttle > 0 then [Event.sleep options.Throttle] else []

/-- Calls on the logger, as opposed to calls on the progress writer and the
tree. -/
def isLogging : Call → Bool
  | Call.debug _ _ => true
  | Call.logError _ => true
  | _ => false

/-- What `Scan` does for one key, logging apart: one `Increment`, then one `Add`
with `BytesSize = size * f` (the `int64` product) and `KeysCount = f`. -/
def keyCalls (f : Int) (key : String) (size : Int) : List Call :=
  [Call.increment, Call.add key [⟨Param.BytesSize, mulInt64 size f⟩, ⟨Param.KeysCount, f⟩]]

/-- What `Scan` does for one page, logging apart: `keyCalls` for each key with
its size, in page order. -/
def contributions (f : Int) (b : BulkKeyInfo) : List Call :=
  (b.Keys.zip b.Sizes).flatMap (fun ks => keyCalls f ks.1 ks.2)

/-- A page the store serves to a successful `SCAN`: the cursor it returns, the
keys, and what the pipelined `MEMORY USAGE` round trip of the page then does. -/
structure ScannedPage where
  next : String
  keys : List String
  usage : List Int
  usageErr : Option String

/-- The replies of the store for a served page. -/
def ScannedPage.reply (p : ScannedPage) : PageReply :=
  { scan := .ok (p.next, p.keys), usage := p.usage, usageErr := p.usageErr }

/-- The steps of one iteration whose `SCAN` succeeded and whose sampling loop
ended in state `st` with buffers of length `bufLen`. -/
def stepEvents (options : ScanOptions) (cur : String) (st : SampleState) (bufLen : Nat)
    (reply : PageReply) : List Event :=
  Event.scan cur options.ScanCount ::
    (Event.usage (st.cmds.map Prod.fst) ::
      (match reply.usageErr with
       | some msg => [Event.failed msg]
       | none => [])
      ++ [Event.emit (pageResult st bufLen reply.usage)])

/-! # Properties -/

/-! ## Sampling loop -/

theorem selectedFrom_nil (sp : Int) (i : Nat) : selectedFrom sp i [] = [] := rfl

theorem selectedFrom_cons (sp : Int) (i : Nat) (k : String) (ks : List String) :
    selectedFrom sp i (k :: ks) =
      if (i : Int) % 100 < sp then k :: selectedFrom sp (i + 1) ks
      else selectedFrom sp (i + 1) ks := by
  unfold selectedFrom
  by_cases h : (i : Int) % 100 < sp <;> simp [List.enumFrom_cons, List.filter_cons, h]

theorem take_succ_set {α : Type} (l : List α) (k : Nat) (x : α) (h : k < l.length) :
    (l.set k x).take (k + 1) = l.take k ++ [x] := by
  induction l generalizing k with
  | nil => simp at h
  | cons a t ih =>
    cases k with
    | zero => simp
    | succ k =>
      simp only [List.length_cons, Nat.succ_lt_succ_iff] at h
      simp [ih k h]

/-- Invariant of the sampling loop: when the buffer has room for the keys still
to be selected, the loop ends without a fault, `keyIndex` has advanced by their
number, the buffer holds them after what it held, and one command per selected
key was appended, the `j`-th pointing at slot `j`. -/
theorem sampleLoop_ok (sp : Int) (keys : List String) :
    ∀ (index : Nat) (st : SampleState),
      st.keyIndex + (selectedFrom sp index keys).length ≤ st.Keys.length →
      ∃ st', sampleLoop sp keys index st = .ok st' ∧
        st'.keyIndex = st.keyIndex + (selectedFrom sp index keys).length ∧
        st'.Keys.length = st.Keys.length ∧
        st'.Keys.take st'.keyIndex = st.Keys.take st.keyIndex ++ selectedFrom sp index keys ∧
        st'.cmds = st.cmds ++ (selectedFrom sp index keys).zip
          (List.range' st.keyIndex (selectedFrom sp index keys).length) := by
  induction keys with
  | nil =>
    intro index st _
    exact ⟨st, by simp [sampleLoop, selectedFrom_nil]⟩
  | cons k ks ih =>
    intro index st h
    rw [selectedFrom_cons] at h ⊢
    by_cases hc : (index : Int) % 100 < sp
    · simp only [hc, if_true, List.length_cons] at h ⊢
      have hlt : st.keyIndex < st.Keys.length := by omega
      obtain ⟨st', h1, h2, h3, h4, h5⟩ := ih (index + 1)
        { Keys := st.Keys.set st.keyIndex k
          cmds := st.cmds ++ [(k, st.keyIndex)]
          keyIndex := st.keyIndex + 1 } (by simp; omega)
      refine ⟨st', ?_, ?_, ?_, ?_, ?_⟩
      · simp [sampleLoop, hc, hlt, h1]
      · simp at h2; omega
      · simpa using h3
      · rw [h4]; simp [take_succ_set _ _ _ hlt]
      · rw [h5]; simp [List.range'_succ]
    · simp only [hc, if_false] at h ⊢
      obtain ⟨st', h1, h2, h3, h4, h5⟩ := ih (index + 1) st h
      exact ⟨st', by simp [sampleLoop, hc, h1], h2, h3, h4, h5⟩

theorem selectedFrom_length_le (sp : Int) (keys : List String) :
    ∀ index, (selectedFrom sp index keys).length ≤ keys.length := by
  induction keys with
  | nil => intro _; simp [selectedFrom_nil]
  | cons k ks ih =>
    intro index
    rw [selectedFrom_cons]
    have := ih (index + 1)
    split <;> simp <;> omega

theorem applyUsage_range (ks : List String) :
    ∀ (a : Nat) (usage buf : List Int), a + ks.length ≤ buf.length →
      applyUsage (ks.zip (List.range' a ks.length)) usage buf =
        buf.take a ++ usage.take ks.length ++ buf.drop (a + min ks.length usage.length) := by
  induction ks with
  | nil => intro a usage buf _; simp [applyUsage]
  | cons k ks ih =>
    intro a usage buf h
    cases usage with
    | nil => simp [applyUsage]
    | cons u us =>
      simp only [List.length_cons] at h
      have hlt : a < buf.length := by omega
      have step : applyUsage ((k :: ks).zip (List.range' a (k :: ks).length)) (u :: us) buf =
          applyUsage (ks.zip (List.range' (a + 1) ks.length)) us (buf.set a u) := by
        simp [applyUsage, List.range'_succ]
      rw [step, ih (a + 1) us (buf.set a u) (by simp; omega)]
      rw [take_succ_set _ _ _ hlt, List.drop_set_of_lt _ _ (by omega)]
      have e : a + 1 + min ks.length us.length =
          a + min (k :: ks).length (u :: us).length := by
        simp only [List.length_cons]; omega
      rw [e]
      simp

theorem samplePage_valid (sp : Int) (keys : List String) (usage : List Int)
    (h1 : 1 ≤ sp) (h100 : sp ≤ 100) :
    ∃ st bufLen, samplePage sp keys = .ok (st, bufLen) ∧
      st.keyIndex = (selectedKeys sp keys).length ∧
      st.keyIndex ≤ bufLen ∧
      st.Keys.length = bufLen ∧
      (bufLen : Int) = (keys.length : Int) * 100 / sp ∧
      st.cmds.map Prod.fst = selectedKeys sp keys ∧
      pageResult st bufLen usage = sampledPage sp keys usage := by
  have hne : sp ≠ 0 := by omega
  have hdiv : Int.tdiv ((keys.length : Int) * 100) sp = (keys.length : Int) * 100 / sp :=
    Int.tdiv_eq_ediv (by positivity) (by omega)
  have hle : (keys.length : Int) ≤ (keys.length : Int) * 100 / sp := by
    apply Int.le_ediv_of_mul_le (by omega)
    have : (0 : Int) ≤ keys.length := by positivity
    nlinarith
  have hnn : ¬ ((keys.length : Int) * 100 / sp < 0) := by omega
  have hsel := selectedFrom_length_le sp keys 0
  have hroom : (selectedFrom sp 0 keys).length ≤ ((keys.length : Int) * 100 / sp).toNat := by
    omega
  obtain ⟨st, e1, e2, e3, e4, e5⟩ := sampleLoop_ok sp keys 0
    { Keys := List.replicate ((keys.length : Int) * 100 / sp).toNat "", cmds := [], keyIndex := 0 }
    (by simpa using hroom)
  refine ⟨st, ((keys.length : Int) * 100 / sp).toNat, ?_, ?_, ?_, ?_, ?_, ?_, ?_⟩
  · simp [samplePage, hne, hdiv, hnn, e1]
  · simpa [selectedKeys] using e2
  · simp at e2; omega
  · simpa using e3
  · omega
  · simp at e5; rw [e5]
    simp only [selectedKeys]
    exact List.map_fst_zip _ _ (by simp)
  · simp only [pageResult, sampledPage, BulkKeyInfo.mk.injEq]
    simp at e5 e4 e2
    constructor
    · rw [e4]; rfl
    · rw [e5, e2]
      have := applyUsage_range (selectedFrom sp 0 keys) 0 usage
        (List.replicate ((keys.length : Int) * 100 / sp).toNat 0) (by simpa using hroom)
      simp only [Nat.zero_add] at this
      rw [this]
      simp only [measuredSizes, selectedKeys]
      generalize (selectedFrom sp 0 keys).length = k at hroom ⊢
      generalize ((keys.length : Int) * 100 / sp).toNat = L at hroom ⊢
      rw [List.take_zero, List.nil_append, List.take_append_eq_append_take, List.take_take,
        Nat.min_self, List.length_take, List.drop_replicate, List.take_replicate]
      congr 2
      omega

/-! ## Scanning loop -/

theorem scanLoop_valid_step (options : ScanOptions) (cur next : String) (keys : List String)
    (reply : PageReply) (rest : List PageReply)
    (h1 : 1 ≤ options.SamplePerc) (h100 : options.SamplePerc ≤ 100)
    (hscan : reply.scan = .ok (next, keys)) :
    scanLoop options cur (reply :: rest) =
      if next = "0" then
        { events := pageEvents options cur keys reply, outcome := Outcome.closed }
      else
        (scanLoop options next rest).after
          (pageEvents options cur keys reply ++ throttleEvents options) := by
  obtain ⟨st, bufLen, e1, _, _, _, _, e6, e7⟩ :=
    samplePage_valid options.SamplePerc keys reply.usage h1 h100
  rw [scanLoop, hscan]
  simp only [e1, e6, e7]
  rfl

theorem emitted_append (xs ys : List Event) : emitted (xs ++ ys) = emitted xs ++ emitted ys := by
  induction xs with
  | nil => rfl
  | cons e es ih => cases e <;> simp [emitted, ih]

theorem emitted_pageEvents (options : ScanOptions) (cur : String) (keys : List String)
    (reply : PageReply) :
    emitted (pageEvents options cur keys reply) =
      [sampledPage options.SamplePerc keys reply.usage] := by
  unfold pageEvents
  cases reply.usageErr <;> simp [emitted]

theorem emitted_throttleEvents (options : ScanOptions) : emitted (throttleEvents options) = [] := by
  unfold throttleEvents
  split <;> simp [emitted]

/-- When the channel can be allocated, `ScanKeys` is the run of its goroutine. -/
theorem ScanKeys_of_capacity (options : ScanOptions) (store : List PageReply)
    (hcap : 0 ≤ wrapInt64 (options.ScanCount * 2)) :
    ScanKeys options store = scanGoroutine options store := by
  unfold ScanKeys
  rw [if_neg (by omega)]

/-- When the capacity is negative, `ScanKeys` panics before anything else. -/
theorem ScanKeys_no_capacity (options : ScanOptions) (store : List PageReply)
    (hcap : wrapInt64 (options.ScanCount * 2) < 0) :
    ScanKeys options store =
      { events := [], outcome := Outcome.panicked Fault.makeChanSize } := by
  unfold ScanKeys
  rw [if_pos hcap]

theorem measuredSizes_length (k : Nat) (usage : List Int) : (measuredSizes k usage).length = k := by
  simp [measuredSizes]; omega

theorem measuredSizes_exact (usage : List Int) : measuredSizes usage.length usage = usage := by
  simp [measuredSizes]


/-! ## Orchestrator -/

theorem mulInt64_exact (a b : Int) (h : isInt64 (a * b)) : mulInt64 a b = a * b := by
  unfold isInt64 at h
  unfold mulInt64 wrapInt64
  omega

theorem tdiv_samplePerc (sp : Int) (h : 1 ≤ sp) : Int.tdiv 100 sp = 100 / sp :=
  Int.tdiv_eq_ediv (by decide) (by omega)

theorem scanPage_calls (options : ScanOptions) (sizes : List Int)
    (hne : options.SamplePerc ≠ 0) (keys : List String) :
    ∀ index, index + keys.length ≤ sizes.length →
      (scanPage options sizes keys index).fault = none ∧
      (scanPage options sizes keys index).calls.filter (fun c => !isLogging c) =
        (keys.zip (sizes.drop index)).flatMap
          (fun ks => keyCalls (Int.tdiv 100 options.SamplePerc) ks.1 ks.2) := by
  induction keys with
  | nil => intro index _; simp [scanPage]
  | cons k ks ih =>
    intro index h
    simp only [List.length_cons] at h
    have hlt : index < sizes.length := by omega
    obtain ⟨ih1, ih2⟩ := ih (index + 1) (by omega)
    have hget : sizes.get? index = some sizes[index] := by
      rw [List.get?_eq_getElem?]; exact List.getElem?_eq_getElem hlt
    simp only [scanPage, hget, hne, if_false, ScanRun.after]
    refine ⟨ih1, ?_⟩
    rw [List.filter_append, ih2, List.drop_eq_getElem_cons hlt, List.zip_cons_cons,
      List.flatMap_cons]
    by_cases hd : index % 10 = 0 <;> simp [hd, isLogging, keyCalls, List.filter_cons]

theorem scanPages_calls (options : ScanOptions) (hne : options.SamplePerc ≠ 0)
    (stream : List BulkKeyInfo) (hshape : ∀ p ∈ stream, p.Keys.length ≤ p.Sizes.length) :
    (scanPages options stream).fault = none ∧
    (scanPages options stream).calls.filter (fun c => !isLogging c) =
      stream.flatMap (contributions (Int.tdiv 100 options.SamplePerc)) := by
  induction stream with
  | nil => simp [scanPages]
  | cons p ps ih =>
    obtain ⟨ih1, ih2⟩ := ih (fun q hq => hshape q (List.mem_cons_of_mem _ hq))
    obtain ⟨h1, h2⟩ := scanPage_calls options p.Sizes hne p.Keys 0
      (by simpa using hshape p (List.mem_cons_self _ _))
    simp only [scanPages, h1, ScanRun.after]
    refine ⟨ih1, ?_⟩
    rw [List.filter_append, ih2, h2]
    simp [contributions]

/-- C5 (orchestrator contributions). For `SamplePerc ≥ 1` and every closed stream
of pages whose `Sizes` cover their `Keys`, `Scan` ends without a fault and its
calls on the progress writer and the tree are, in order: one `Start`; then for
each page in stream order and each key in page order one `Increment` followed by
one `Add` of that key with `BytesSize = Sizes[i] * f` and `KeysCount = f`, where
`f = 100 / SamplePerc`; then one `Stop`. The product is the `int64` product of
the code, which is the exact product whenever that fits in `int64`. -/
theorem Scan_contributions (options : ScanOptions) (dbsize : Except String Int)
    (stream : List BulkKeyInfo)
    (h1 : 1 ≤ options.SamplePerc)
    (hshape : ∀ p ∈ stream, p.Keys.length ≤ p.Sizes.length) :
    (Scan options dbsize stream).fault = none ∧
    (∃ total, (Scan options dbsize stream).calls.filter (fun c => !isLogging c) =
      Call.start total ::
        (stream.flatMap (fun p => (p.Keys.zip p.Sizes).flatMap (fun ks =>
          [Call.increment,
           Call.add ks.1 [⟨Param.BytesSize, mulInt64 ks.2 (100 / options.SamplePerc)⟩,
                          ⟨Param.KeysCount, 100 / options.SamplePerc⟩]]))
          ++ [Call.stop])) ∧
    (∀ size : Int, isInt64 (size * (100 / options.SamplePerc)) →
      mulInt64 size (100 / options.SamplePerc) = size * (100 / options.SamplePerc)) := by
  have hne : options.SamplePerc ≠ 0 := by omega
  obtain ⟨hf, hc⟩ := scanPages_calls options hne stream hshape
  rw [tdiv_samplePerc _ h1] at hc
  refine ⟨?_, ?_, fun size h => mulInt64_exact _ _ h⟩
  · simp [Scan, hf]
  · simp only [Scan, hf]
    by_cases hp : options.Pattern = "*" ∨ options.Pattern = ""
    · cases dbsize with
      | error msg =>
        refine ⟨Int.tdiv (mulInt64 0 options.SamplePerc) 100, ?_⟩
        simp only [hp, if_true, getKeysCount, List.filter_append, hc]
        simp [isLogging, contributions, keyCalls]
        rfl
      | ok res =>
        refine ⟨Int.tdiv (mulInt64 res options.SamplePerc) 100, ?_⟩
        simp only [hp, if_true, getKeysCount, List.filter_append, hc]
        simp [isLogging, contributions, keyCalls]
        rfl
    · refine ⟨Int.tdiv (mulInt64 0 options.SamplePerc) 100, ?_⟩
      simp only [hp, if_false, List.filter_append, hc]
      simp [isLogging, contributions, keyCalls]
      rfl

/-- Witness for C5: `SamplePerc = 30` (factor 3) on a stream of two pages. -/
theorem Scan_contributions_witness :
    (Scan ⟨"user:*", 10, 0, 30⟩ (.ok 7) [⟨["a", "b"], [5, 6]⟩, ⟨["c"], [7]⟩]).fault = none ∧
    (∃ total, (Scan ⟨"user:*", 10, 0, 30⟩ (.ok 7) [⟨["a", "b"], [5, 6]⟩, ⟨["c"], [7]⟩]).calls.filter
        (fun c => !isLogging c) =
      Call.start total ::
        (([⟨["a", "b"], [5, 6]⟩, ⟨["c"], [7]⟩] : List BulkKeyInfo).flatMap
          (fun p => (p.Keys.zip p.Sizes).flatMap (fun ks =>
          [Call.increment,
           Call.add ks.1 [⟨Param.BytesSize, mulInt64 ks.2 (100 / (30 : Int))⟩,
                          ⟨Param.KeysCount, 100 / (30 : Int)⟩]]))
          ++ [Call.stop])) ∧
    (∀ size : Int, isInt64 (size * (100 / (30 : Int))) →
      mulInt64 size (100 / (30 : Int)) = size * (100 / (30 : Int))) :=
  Scan_contributions ⟨"user:*", 10, 0, 30⟩ (.ok 7) [⟨["a", "b"], [5, 6]⟩, ⟨["c"], [7]⟩]
    (by decide) (by decide)

theorem addCalls_append (xs ys : List Call) : addCalls (xs ++ ys) = addCalls xs ++ addCalls ys := by
  induction xs with
  | nil => rfl
  | cons c cs ih => cases c <;> simp [addCalls, ih]

theorem addCalls_filter (cs : List Call) :
    addCalls (cs.filter (fun c => !isLogging c)) = addCalls cs := by
  induction cs with
  | nil => rfl
  | cons c cs ih =>
    cases c <;> first
      | (rw [List.filter_cons_of_pos (by rfl)]; simp [addCalls, ih])
      | (rw [List.filter_cons_of_neg (by simp [isLogging])]; simp [addCalls, ih])

theorem addCalls_contributions (f : Int) (b : BulkKeyInfo) :
    addCalls (contributions f b) =
      (b.Keys.zip b.Sizes).map
        (fun ks => (ks.1, [⟨Param.BytesSize, mulInt64 ks.2 f⟩, ⟨Param.KeysCount, f⟩])) := by
  unfold contributions
  induction b.Keys.zip b.Sizes with
  | nil => rfl
  | cons ks rest ih =>
    rw [List.flatMap_cons, addCalls_append, ih]
    rfl

theorem addCalls_Scan (options : ScanOptions) (dbsize : Except String Int)
    (stream : List BulkKeyInfo) :
    addCalls (Scan options dbsize stream).calls = addCalls (scanPages options stream).calls := by
  unfold Scan
  have hb : ∀ d, addCalls (getKeysCount d).1 = [] := by
    intro d; cases d <;> rfl
  cases hf : (scanPages options stream).fault <;>
    by_cases hp : options.Pattern = "*" ∨ options.Pattern = "" <;>
    simp [hf, hp, addCalls_append, addCalls, hb]

theorem selectedFrom_all (sp : Int) (keys : List String) :
    ∀ index : Nat, ((index + keys.length : Nat) : Int) ≤ sp → index + keys.length ≤ 100 →
      selectedFrom sp index keys = keys := by
  induction keys with
  | nil => intro _ _ _; rfl
  | cons k ks ih =>
    intro index h h'
    simp only [List.length_cons] at h h'
    have hc : (index : Int) % 100 < sp := by omega
    rw [selectedFrom_cons, if_pos hc, ih (index + 1) (by omega) (by omega)]

/-- C2, as stated, fails: with `SamplePerc = 50` a page of 10 keys is emitted
with all 10 keys, not 5, because every position below 50 is selected. -/
theorem ScanKeys_ten_keys_counterexample :
    emitted (ScanKeys ⟨"*", 10, 0, 50⟩
      [⟨.ok ("0", ["k0", "k1", "k2", "k3", "k4", "k5", "k6", "k7", "k8", "k9"]),
        [1, 2, 3, 4, 5, 6, 7, 8, 9, 10], none⟩]).events =
      [⟨["k0", "k1", "k2", "k3", "k4", "k5", "k6", "k7", "k8", "k9"],
        [1, 2, 3, 4, 5, 6, 7, 8, 9, 10]⟩] ∧
    ¬ ∃ b, b ∈ emitted (ScanKeys ⟨"*", 10, 0, 50⟩
      [⟨.ok ("0", ["k0", "k1", "k2", "k3", "k4", "k5", "k6", "k7", "k8", "k9"]),
        [1, 2, 3, 4, 5, 6, 7, 8, 9, 10], none⟩]).events ∧ b.Keys.length = 5 := by
  have e : emitted (ScanKeys ⟨"*", 10, 0, 50⟩
      [⟨.ok ("0", ["k0", "k1", "k2", "k3", "k4", "k5", "k6", "k7", "k8", "k9"]),
        [1, 2, 3, 4, 5, 6, 7, 8, 9, 10], none⟩]).events =
      [⟨["k0", "k1", "k2", "k3", "k4", "k5", "k6", "k7", "k8", "k9"],
        [1, 2, 3, 4, 5, 6, 7, 8, 9, 10]⟩] := by decide
  refine ⟨e, ?_⟩
  rw [e]
  simp

/-- C2, amended. For `SamplePerc = 50` and any page of exactly 10 keys, the
`BulkKeyInfo` sent for the page contains all 10 keys of the page, in order, and
`Scan` adds each of them once with `KeysCount = 2` and `BytesSize` the `int64`
product of its size and 2, which is twice the size whenever that fits in
`int64`. -/
theorem ScanKeys_ten_keys_all_selected (options : ScanOptions) (cur next : String)
    (keys : List String) (reply : PageReply) (rest : List PageReply)
    (dbsize : Except String Int)
    (h50 : options.SamplePerc = 50) (hlen : keys.length = 10)
    (hscan : reply.scan = .ok (next, keys)) :
    ∃ b : BulkKeyInfo,
      emitted (scanLoop options cur (reply :: rest)).events =
        b :: (if next = "0" then [] else emitted (scanLoop options next rest).events) ∧
      b.Keys = keys ∧ b.Keys.length = 10 ∧ b.Sizes.length = 10 ∧
      (Scan options dbsize [b]).fault = none ∧
      addCalls (Scan options dbsize [b]).calls =
        (b.Keys.zip b.Sizes).map
          (fun ks => (ks.1, [⟨Param.BytesSize, mulInt64 ks.2 2⟩, ⟨Param.KeysCount, 2⟩])) ∧
      (∀ size : Int, isInt64 (size * 2) → mulInt64 size 2 = size * 2) := by
  have h1 : 1 ≤ options.SamplePerc := by omega
  have h100 : options.SamplePerc ≤ 100 := by omega
  have hne : options.SamplePerc ≠ 0 := by omega
  have hsel : selectedKeys options.SamplePerc keys = keys :=
    selectedFrom_all _ keys 0 (by rw [h50]; simp [hlen]) (by omega)
  have hK : (sampledPage options.SamplePerc keys reply.usage).Keys = keys := hsel
  have hS : (sampledPage options.SamplePerc keys reply.usage).Sizes.length = 10 := by
    simp [sampledPage, measuredSizes_length, hsel, hlen]
  have hf : Int.tdiv 100 options.SamplePerc = 2 := by rw [h50]; rfl
  obtain ⟨p1, p2⟩ := scanPages_calls options hne
    [sampledPage options.SamplePerc keys reply.usage] (by simp [hK, hS, hlen])
  refine ⟨sampledPage options.SamplePerc keys reply.usage, ?_, hK, by rw [hK, hlen], hS, ?_, ?_,
    fun size h => mulInt64_exact _ _ h⟩
  · rw [scanLoop_valid_step options cur next keys reply rest h1 h100 hscan]
    by_cases hn : next = "0"
    · simp [hn, emitted_pageEvents]
    · simp [hn, ScanKeysRun.after, emitted_append, emitted_pageEvents, emitted_throttleEvents]
  · simp [Scan, p1]
  · rw [addCalls_Scan, ← addCalls_filter, p2, hf]
    simp [addCalls_contributions]

/-- Witness for the amended C2: a page of 10 keys at `SamplePerc = 50`. -/
theorem ScanKeys_ten_keys_all_selected_witness :
    ∃ b : BulkKeyInfo,
      emitted (scanLoop ⟨"*", 10, 0, 50⟩ "0"
        (⟨.ok ("0", ["k0", "k1", "k2", "k3", "k4", "k5", "k6", "k7", "k8", "k9"]),
          [1, 2, 3, 4, 5, 6, 7, 8, 9, 10], none⟩ :: [])).events =
        b :: (if "0" = "0" then [] else emitted (scanLoop ⟨"*", 10, 0, 50⟩ "0" []).events) ∧
      b.Keys = ["k0", "k1", "k2", "k3", "k4", "k5", "k6", "k7", "k8", "k9"] ∧
      b.Keys.length = 10 ∧ b.Sizes.length = 10 ∧
      (Scan ⟨"*", 10, 0, 50⟩ (.ok 10) [b]).fault = none ∧
      addCalls (Scan ⟨"*", 10, 0, 50⟩ (.ok 10) [b]).calls =
        (b.Keys.zip b.Sizes).map
          (fun ks => (ks.1, [⟨Param.BytesSize, mulInt64 ks.2 2⟩, ⟨Param.KeysCount, 2⟩])) ∧
      (∀ size : Int, isInt64 (size * 2) → mulInt64 size 2 = size * 2) :=
  ScanKeys_ten_keys_all_selected ⟨"*", 10, 0, 50⟩ "0" "0"
    ["k0", "k1", "k2", "k3", "k4", "k5", "k6", "k7", "k8", "k9"]
    ⟨.ok ("0", ["k0", "k1", "k2", "k3", "k4", "k5", "k6", "k7", "k8", "k9"]),
      [1, 2, 3, 4, 5, 6, 7, 8, 9, 10], none⟩ [] (.ok 10) rfl rfl rfl

/-! ## Failures -/

/-- A failed `SCAN` ends the goroutine at once: nothing is sent for the page and
no further round trip is made. -/
theorem scanLoop_scan_error (options : ScanOptions) (cur msg : String) (reply : PageReply)
    (rest : List PageReply) (h : reply.scan = .error msg) :
    scanLoop options cur (reply :: rest) =
      { events := [Event.scan cur options.ScanCount, Event.failed msg],
        outcome := Outcome.closed } := by
  rw [scanLoop, h]

/-- C3 (fail-fast on a failed round trip) does not hold for the pipelined
`MEMORY USAGE` round trip. Here the first `SCAN` returns cursor `17` and the keys
`a`, `b`, and the pipeline for that page fails without storing a reply: the
failure is printed, the page is nevertheless sent with sizes `0`, and the loop
goes on with a second `SCAN` at cursor `17`. -/
theorem ScanKeys_usage_error_still_emits :
    ScanKeys ⟨"*", 10, 0, 100⟩
      [⟨.ok ("17", ["a", "b"]), [], some "i/o timeout"⟩, ⟨.ok ("0", ["c"]), [25], none⟩] =
      { events :=
          [Event.scan "0" 10, Event.usage ["a", "b"], Event.failed "i/o timeout",
           Event.emit ⟨["a", "b"], [0, 0]⟩,
           Event.scan "17" 10, Event.usage ["c"], Event.emit ⟨["c"], [25]⟩],
        outcome := Outcome.closed } := by
  decide

theorem sampleLoop_ne_divideByZero (sp : Int) (keys : List String) :
    ∀ (index : Nat) (st : SampleState),
      sampleLoop sp keys index st ≠ .error Fault.divideByZero := by
  induction keys with
  | nil => intro index st; simp [sampleLoop]
  | cons k ks ih =>
    intro index st
    unfold sampleLoop
    split
    · split
      · exact ih _ _
      · simp
    · exact ih _ _

theorem samplePage_ne_divideByZero (sp : Int) (keys : List String) (hne : sp ≠ 0) :
    samplePage sp keys ≠ .error Fault.divideByZero := by
  unfold samplePage
  rw [if_neg hne]
  simp only
  split
  · simp
  · have := sampleLoop_ne_divideByZero sp keys 0
      { Keys := List.replicate (Int.tdiv ((keys.length : Int) * 100) sp).toNat "", cmds := [],
        keyIndex := 0 }
    split
    · rename_i f hf
      intro h
      injection h with h
      rw [h] at hf
      exact this hf
    · simp

theorem scanLoop_ne_divideByZero (options : ScanOptions) (hne : options.SamplePerc ≠ 0)
    (store : List PageReply) :
    ∀ cur, (scanLoop options cur store).outcome ≠ Outcome.panicked Fault.divideByZero := by
  induction store with
  | nil => intro cur; simp [scanLoop]
  | cons reply rest ih =>
    intro cur
    unfold scanLoop
    split
    · simp
    · rename_i next keys _
      split
      · rename_i f hf
        intro h
        injection h with h
        rw [h] at hf
        exact samplePage_ne_divideByZero _ keys hne hf
      · simp only
        split
        · simp
        · simpa [ScanKeysRun.after] using ih next

theorem scanLoop_zero_samplePerc (options : ScanOptions) (h0 : options.SamplePerc = 0)
    (cur next : String) (keys : List String) (reply : PageReply) (rest : List PageReply)
    (hscan : reply.scan = .ok (next, keys)) :
    scanLoop options cur (reply :: rest) =
      { events := [Event.scan cur options.ScanCount],
        outcome := Outcome.panicked Fault.divideByZero } := by
  rw [scanLoop, hscan]
  simp [samplePage, h0]

theorem scanPage_ne_divideByZero (options : ScanOptions) (hne : options.SamplePerc ≠ 0)
    (sizes : List Int) (keys : List String) :
    ∀ index, (scanPage options sizes keys index).fault ≠ some Fault.divideByZero := by
  induction keys with
  | nil => intro index; simp [scanPage]
  | cons k ks ih =>
    intro index
    unfold scanPage
    split
    · simp
    · simpa [hne, ScanRun.after] using ih (index + 1)

theorem scanPages_ne_divideByZero (options : ScanOptions) (hne : options.SamplePerc ≠ 0)
    (stream : List BulkKeyInfo) :
    (scanPages options stream).fault ≠ some Fault.divideByZero := by
  induction stream with
  | nil => simp [scanPages]
  | cons p ps ih =>
    unfold scanPages
    have := scanPage_ne_divideByZero options hne p.Sizes p.Keys 0
    simp only
    split
    · rename_i f hf
      simp only
      rw [← hf]
      exact this
    · simpa [ScanRun.after] using ih

/-- C8 (`SamplePerc = 0`). With `SamplePerc = 0`, every iteration whose `SCAN`
succeeded panics with an integer division by zero when the buffer length is
computed, whatever the page (the empty page included), and no `BulkKeyInfo` is
ever sent, whatever the store does. With `SamplePerc ≠ 0`, neither the goroutine
of `ScanKeys` nor `Scan` ever panics with a division by zero. -/
theorem ScanKeys_zero_samplePerc_divides_by_zero (options : ScanOptions) (cur : String)
    (store : List PageReply) (dbsize : Except String Int) (stream : List BulkKeyInfo) :
    (options.SamplePerc = 0 →
      (∀ next keys reply rest, store = reply :: rest → reply.scan = .ok (next, keys) →
        (scanLoop options cur store).outcome = Outcome.panicked Fault.divideByZero) ∧
      emitted (scanLoop options cur store).events = [] ∧
      emitted (ScanKeys options store).events = []) ∧
    (options.SamplePerc ≠ 0 →
      (scanLoop options cur store).outcome ≠ Outcome.panicked Fault.divideByZero ∧
      (ScanKeys options store).outcome ≠ Outcome.panicked Fault.divideByZero ∧
      (Scan options dbsize stream).fault ≠ some Fault.divideByZero) := by
  constructor
  · intro h0
    have hem : ∀ c, emitted (scanLoop options c store).events = [] := by
      intro c
      cases store with
      | nil => simp [scanLoop, emitted]
      | cons reply rest =>
        cases hs : reply.scan with
        | error msg => rw [scanLoop_scan_error options c msg reply rest hs]; simp [emitted]
        | ok page =>
          obtain ⟨next, keys⟩ := page
          rw [scanLoop_zero_samplePerc options h0 c next keys reply rest hs]; simp [emitted]
    refine ⟨?_, hem cur, ?_⟩
    · intro next keys reply rest hst hscan
      rw [hst, scanLoop_zero_samplePerc options h0 cur next keys reply rest hscan]
    · by_cases hcap : wrapInt64 (options.ScanCount * 2) < 0
      · rw [ScanKeys_no_capacity options store hcap]; rfl
      · rw [ScanKeys_of_capacity options store (by omega)]; exact hem "0"
  · intro hne
    refine ⟨scanLoop_ne_divideByZero options hne store cur, ?_, ?_⟩
    · by_cases hcap : wrapInt64 (options.ScanCount * 2) < 0
      · rw [ScanKeys_no_capacity options store hcap]; simp
      · rw [ScanKeys_of_capacity options store (by omega)]
        exact scanLoop_ne_divideByZero options hne store "0"
    have := scanPages_ne_divideByZero options hne stream
    unfold Scan
    simp only
    split
    · rename_i f hf
      simp only
      rw [← hf]; exact this
    · simp

/-- Witness for C8: `SamplePerc = 0` on an empty first page, and `SamplePerc = 150`
on a page of one key (an index fault, not a division by zero). -/
theorem ScanKeys_zero_samplePerc_divides_by_zero_witness :
    ((scanLoop ⟨"*", 10, 0, 0⟩ "0" [⟨.ok ("0", []), [], none⟩]).outcome =
        Outcome.panicked Fault.divideByZero ∧
      emitted (ScanKeys ⟨"*", 10, 0, 0⟩ [⟨.ok ("0", []), [], none⟩]).events = []) ∧
    ((ScanKeys ⟨"*", 10, 0, 150⟩ [⟨.ok ("0", ["a"]), [1], none⟩]).outcome ≠
        Outcome.panicked Fault.divideByZero ∧
      (Scan ⟨"*", 10, 0, 150⟩ (.ok 1) [⟨["a"], []⟩]).fault ≠ some Fault.divideByZero) :=
  ⟨⟨((ScanKeys_zero_samplePerc_divides_by_zero ⟨"*", 10, 0, 0⟩ "0"
        [⟨.ok ("0", []), [], none⟩] (.ok 0) []).1 rfl).1 "0" [] _ [] rfl rfl,
    ((ScanKeys_zero_samplePerc_divides_by_zero ⟨"*", 10, 0, 0⟩ "0"
        [⟨.ok ("0", []), [], none⟩] (.ok 0) []).1 rfl).2.2⟩,
   ⟨((ScanKeys_zero_samplePerc_divides_by_zero ⟨"*", 10, 0, 150⟩ "0"
        [⟨.ok ("0", ["a"]), [1], none⟩] (.ok 1) [⟨["a"], []⟩]).2 (by decide)).2.1,
    ((ScanKeys_zero_samplePerc_divides_by_zero ⟨"*", 10, 0, 150⟩ "0"
        [⟨.ok ("0", ["a"]), [1], none⟩] (.ok 1) [⟨["a"], []⟩]).2 (by decide)).2.2⟩⟩

/-! ## Cursor walk -/

theorem scanCursors_append (xs ys : List Event) :
    scanCursors (xs ++ ys) = scanCursors xs ++ scanCursors ys := by
  induction xs with
  | nil => rfl
  | cons e es ih => cases e <;> simp [scanCursors, ih]

theorem scanCursors_pageEvents (options : ScanOptions) (cur : String) (keys : List String)
    (reply : PageReply) : scanCursors (pageEvents options cur keys reply) = [cur] := by
  unfold pageEvents
  cases reply.usageErr <;> simp [scanCursors]

theorem scanCursors_throttleEvents (options : ScanOptions) :
    scanCursors (throttleEvents options) = [] := by
  unfold throttleEvents
  split <;> simp [scanCursors]

theorem pageEvents_ends_with_emit (options : ScanOptions) (cur : String) (keys : List String)
    (reply : PageReply) :
    ∃ before, pageEvents options cur keys reply =
      before ++ [Event.emit (sampledPage options.SamplePerc keys reply.usage)] := by
  unfold pageEvents
  exact ⟨_, (List.cons_append _ _ _).symm.trans (by rw [List.cons_append])⟩

/-- The cursor walk over pages served to successful `SCAN`s, the last of which
returns the cursor `0`, from any current cursor. -/
theorem scanLoop_walk (options : ScanOptions)
    (h1 : 1 ≤ options.SamplePerc) (h100 : options.SamplePerc ≤ 100)
    (last : ScannedPage) (rest : List PageReply) (hlast : last.next = "0")
    (front : List ScannedPage) :
    ∀ cur, (∀ p ∈ front, p.next ≠ "0") →
      (scanLoop options cur (front.map ScannedPage.reply ++ last.reply :: rest)).outcome =
        Outcome.closed ∧
      scanCursors (scanLoop options cur
        (front.map ScannedPage.reply ++ last.reply :: rest)).events =
        cur :: front.map (fun p => p.next) ∧
      emitted (scanLoop options cur (front.map ScannedPage.reply ++ last.reply :: rest)).events =
        (front ++ [last]).map (fun p => sampledPage options.SamplePerc p.keys p.usage) ∧
      ∃ before, (scanLoop options cur
        (front.map ScannedPage.reply ++ last.reply :: rest)).events =
        before ++ [Event.emit (sampledPage options.SamplePerc last.keys last.usage)] := by
  induction front with
  | nil =>
    intro cur _
    have hs : last.reply.scan = .ok ("0", last.keys) := by simp [ScannedPage.reply, hlast]
    simp only [List.map_nil, List.nil_append]
    rw [scanLoop_valid_step options cur "0" last.keys last.reply rest h1 h100 hs]
    rw [if_pos rfl]
    refine ⟨rfl, scanCursors_pageEvents _ _ _ _, ?_, ?_⟩
    · rw [emitted_pageEvents]; rfl
    · exact pageEvents_ends_with_emit options cur last.keys last.reply
  | cons p ps ih =>
    intro cur hfront
    have hp : p.next ≠ "0" := hfront p (List.mem_cons_self _ _)
    obtain ⟨i1, i2, i3, before, i4⟩ :=
      ih p.next (fun q hq => hfront q (List.mem_cons_of_mem _ hq))
    have hs : p.reply.scan = .ok (p.next, p.keys) := rfl
    simp only [List.map_cons, List.cons_append]
    rw [scanLoop_valid_step options cur p.next p.keys p.reply _ h1 h100 hs]
    simp only [if_neg hp, ScanKeysRun.after]
    refine ⟨i1, ?_, ?_, ?_⟩
    · rw [scanCursors_append, scanCursors_append, scanCursors_pageEvents,
        scanCursors_throttleEvents, i2]
      rfl
    · rw [emitted_append, emitted_append, emitted_pageEvents, emitted_throttleEvents, i3]
      rfl
    · exact ⟨pageEvents options cur p.keys p.reply ++ throttleEvents options ++ before, by
        rw [i4]; simp⟩

theorem scanLoop_ok_step (options : ScanOptions) (cur next : String) (keys : List String)
    (reply : PageReply) (rest : List PageReply) (st : SampleState) (bufLen : Nat)
    (hscan : reply.scan = .ok (next, keys))
    (hpage : samplePage options.SamplePerc keys = .ok (st, bufLen)) :
    scanLoop options cur (reply :: rest) =
      if next = "0" then
        { events := stepEvents options cur st bufLen reply, outcome := Outcome.closed }
      else
        (scanLoop options next rest).after
          (stepEvents options cur st bufLen reply ++ throttleEvents options) := by
  rw [scanLoop, hscan]
  simp only [hpage]
  rfl

theorem scanLoop_fault_step (options : ScanOptions) (cur next : String) (keys : List String)
    (reply : PageReply) (rest : List PageReply) (f : Fault)
    (hscan : reply.scan = .ok (next, keys))
    (hpage : samplePage options.SamplePerc keys = .error f) :
    scanLoop options cur (reply :: rest) =
      { events := [Event.scan cur options.ScanCount], outcome := Outcome.panicked f } := by
  rw [scanLoop, hscan]
  simp only [hpage]

theorem emitted_stepEvents (options : ScanOptions) (cur : String) (st : SampleState)
    (bufLen : Nat) (reply : PageReply) :
    emitted (stepEvents options cur st bufLen reply) = [pageResult st bufLen reply.usage] := by
  unfold stepEvents
  cases reply.usageErr <;> simp [emitted]

theorem Scan_fault (options : ScanOptions) (dbsize : Except String Int)
    (stream : List BulkKeyInfo) :
    (Scan options dbsize stream).fault = (scanPages options stream).fault := by
  unfold Scan
  cases h : (scanPages options stream).fault <;> simp [h]

theorem sampledPage_shape (sp : Int) (keys : List String) (usage : List Int) :
    (sampledPage sp keys usage).Keys.length = (sampledPage sp keys usage).Sizes.length := by
  simp [sampledPage, measuredSizes_length]

theorem scanLoop_valid (options : ScanOptions)
    (h1 : 1 ≤ options.SamplePerc) (h100 : options.SamplePerc ≤ 100) (store : List PageReply) :
    ∀ cur, (∀ f, (scanLoop options cur store).outcome ≠ Outcome.panicked f) ∧
      ∀ b ∈ emitted (scanLoop options cur store).events, b.Keys.length = b.Sizes.length := by
  induction store with
  | nil => intro cur; simp [scanLoop, emitted]
  | cons reply rest ih =>
    intro cur
    cases hs : reply.scan with
    | error msg =>
      rw [scanLoop_scan_error options cur msg reply rest hs]
      simp [emitted]
    | ok page =>
      obtain ⟨next, keys⟩ := page
      rw [scanLoop_valid_step options cur next keys reply rest h1 h100 hs]
      by_cases hn : next = "0"
      · simp [hn, emitted_pageEvents, sampledPage_shape]
      · obtain ⟨i1, i2⟩ := ih next
        simp only [hn, if_false, ScanKeysRun.after, emitted_append, emitted_pageEvents,
          emitted_throttleEvents, List.append_nil]
        refine ⟨i1, ?_⟩
        intro b hb
        simp only [List.singleton_append, List.mem_cons] at hb
        rcases hb with hb | hb
        · rw [hb]; exact sampledPage_shape _ _ _
        · exact i2 b hb

/-- C9 (index safety in the valid range). For `1 ≤ SamplePerc ≤ 100` and every
page, the buffers have length `len(keys) * 100 / SamplePerc`, which is at least
the number of selected keys, and the sampling loop ends without a fault with
`keyIndex` equal to that number and within the buffer, so every write and the
final cut are in range. The goroutine of `ScanKeys` never panics, every page it
sends has as many `Sizes` as `Keys`, and `Scan` over the pages sent ends without
a fault: no index is out of range and no division by zero occurs. The only
panic of `ScanKeys` as a whole is the one of the channel allocation. -/
theorem ScanKeys_index_safety (options : ScanOptions) (keys : List String)
    (store : List PageReply) (dbsize : Except String Int)
    (h1 : 1 ≤ options.SamplePerc) (h100 : options.SamplePerc ≤ 100) :
    (∃ st bufLen, samplePage options.SamplePerc keys = .ok (st, bufLen) ∧
      (bufLen : Int) = (keys.length : Int) * 100 / options.SamplePerc ∧
      st.Keys.length = bufLen ∧
      (selectedKeys options.SamplePerc keys).length ≤ bufLen ∧
      st.keyIndex = (selectedKeys options.SamplePerc keys).length ∧
      st.keyIndex ≤ bufLen) ∧
    (∀ f, (scanGoroutine options store).outcome ≠ Outcome.panicked f) ∧
    (∀ b ∈ emitted (scanGoroutine options store).events, b.Sizes.length = b.Keys.length) ∧
    (Scan options dbsize (emitted (scanGoroutine options store).events)).fault = none ∧
    (∀ f, (ScanKeys options store).outcome = Outcome.panicked f → f = Fault.makeChanSize) := by
  obtain ⟨st, bufLen, e1, e2, e3, e4, e5, _, _⟩ :=
    samplePage_valid options.SamplePerc keys [] h1 h100
  obtain ⟨v1, v2⟩ := scanLoop_valid options h1 h100 store "0"
  refine ⟨⟨st, bufLen, e1, e5, e4, by omega, e2, e3⟩, v1, fun b hb => (v2 b hb).symm, ?_, ?_⟩
  · have hne : options.SamplePerc ≠ 0 := by omega
    obtain ⟨p1, _⟩ := scanPages_calls options hne (emitted (scanGoroutine options store).events)
      (fun b hb => le_of_eq (v2 b hb))
    rw [Scan_fault, p1]
  · intro f hf
    by_cases hcap : wrapInt64 (options.ScanCount * 2) < 0
    · rw [ScanKeys_no_capacity options store hcap] at hf
      injection hf with hf
      exact hf.symm
    · rw [ScanKeys_of_capacity options store (by omega)] at hf
      exact absurd hf (v1 f)

/-- Witness for C9: `SamplePerc = 30` on a page of three keys (buffers of
length 10) followed by an empty last page. -/
theorem ScanKeys_index_safety_witness :
    (∃ st bufLen, samplePage (30 : Int) ["a", "b", "c"] = .ok (st, bufLen) ∧
      (bufLen : Int) = ((["a", "b", "c"] : List String).length : Int) * 100 / (30 : Int) ∧
      st.Keys.length = bufLen ∧
      (selectedKeys (30 : Int) ["a", "b", "c"]).length ≤ bufLen ∧
      st.keyIndex = (selectedKeys (30 : Int) ["a", "b", "c"]).length ∧
      st.keyIndex ≤ bufLen) ∧
    (∀ f, (scanGoroutine ⟨"*", 10, 0, 30⟩
      [⟨.ok ("5", ["a", "b", "c"]), [1, 2, 3], none⟩, ⟨.ok ("0", []), [], none⟩]).outcome ≠
        Outcome.panicked f) ∧
    (∀ b ∈ emitted (scanGoroutine ⟨"*", 10, 0, 30⟩
      [⟨.ok ("5", ["a", "b", "c"]), [1, 2, 3], none⟩, ⟨.ok ("0", []), [], none⟩]).events,
        b.Sizes.length = b.Keys.length) ∧
    (Scan ⟨"*", 10, 0, 30⟩ (.ok 3) (emitted (scanGoroutine ⟨"*", 10, 0, 30⟩
      [⟨.ok ("5", ["a", "b", "c"]), [1, 2, 3], none⟩, ⟨.ok ("0", []), [], none⟩]).events)).fault =
      none ∧
    (∀ f, (ScanKeys ⟨"*", 10, 0, 30⟩
      [⟨.ok ("5", ["a", "b", "c"]), [1, 2, 3], none⟩, ⟨.ok ("0", []), [], none⟩]).outcome =
        Outcome.panicked f → f = Fault.makeChanSize) :=
  ScanKeys_index_safety ⟨"*", 10, 0, 30⟩ ["a", "b", "c"]
    [⟨.ok ("5", ["a", "b", "c"]), [1, 2, 3], none⟩, ⟨.ok ("0", []), [], none⟩] (.ok 3)
    (by decide) (by decide)

/-! ## Totals at the root -/

theorem addCalls_flatMap_contributions (f : Int) (stream : List BulkKeyInfo) :
    addCalls (stream.flatMap (contributions f)) =
      stream.flatMap (fun b => (b.Keys.zip b.Sizes).map
        (fun ks => (ks.1, [⟨Param.BytesSize, mulInt64 ks.2 f⟩, ⟨Param.KeysCount, f⟩]))) := by
  induction stream with
  | nil => rfl
  | cons b bs ih =>
    rw [List.flatMap_cons, List.flatMap_cons, addCalls_append, ih, addCalls_contributions]

theorem paramTotal_bytes (x y : Int) :
    paramTotal Param.BytesSize [⟨Param.BytesSize, x⟩, ⟨Param.KeysCount, y⟩] = x := by
  simp [paramTotal, List.filter_cons]

theorem paramTotal_keys (x y : Int) :
    paramTotal Param.KeysCount [⟨Param.BytesSize, x⟩, ⟨Param.KeysCount, y⟩] = y := by
  simp [paramTotal, List.filter_cons]

theorem sum_map_flatMap {α β : Type} (g : β → Int) (h : α → List β) (l : List α) :
    ((l.flatMap h).map g).sum = (l.map (fun a => ((h a).map g).sum)).sum := by
  induction l with
  | nil => rfl
  | cons a t ih => simp [List.flatMap_cons, ih]

/-- The totals `Scan` accumulates at the root, page by page. -/
theorem rootTotal_Scan (options : ScanOptions) (dbsize : Except String Int)
    (hne : options.SamplePerc ≠ 0)
    (stream : List BulkKeyInfo) (hshape : ∀ p ∈ stream, p.Keys.length ≤ p.Sizes.length) :
    rootTotal Param.BytesSize (Scan options dbsize stream).calls =
      (stream.map (fun b => ((b.Keys.zip b.Sizes).map
        (fun ks => mulInt64 ks.2 (Int.tdiv 100 options.SamplePerc))).sum)).sum ∧
    rootTotal Param.KeysCount (Scan options dbsize stream).calls =
      (stream.map (fun b => (b.Keys.length : Int) * Int.tdiv 100 options.SamplePerc)).sum := by
  obtain ⟨_, hc⟩ := scanPages_calls options hne stream hshape
  have hadd : addCalls (Scan options dbsize stream).calls =
      stream.flatMap (fun b => (b.Keys.zip b.Sizes).map
        (fun ks => (ks.1, [⟨Param.BytesSize, mulInt64 ks.2 (Int.tdiv 100 options.SamplePerc)⟩,
          ⟨Param.KeysCount, Int.tdiv 100 options.SamplePerc⟩]))) := by
    rw [addCalls_Scan, ← addCalls_filter, hc, addCalls_flatMap_contributions]
  unfold rootTotal
  rw [hadd, sum_map_flatMap, sum_map_flatMap]
  constructor
  · congr 1
    apply List.map_congr_left
    intro b _
    simp [List.map_map, Function.comp_def, paramTotal_bytes]
  · congr 1
    apply List.map_congr_left
    intro b hb
    have hlen : (b.Keys.zip b.Sizes).length = b.Keys.length := by
      simp [List.length_zip]; exact hshape b hb
    simp [List.map_map, Function.comp_def, paramTotal_keys, hlen]

theorem selectedFrom_hundred (keys : List String) :
    ∀ index : Nat, selectedFrom 100 index keys = keys := by
  induction keys with
  | nil => intro _; rfl
  | cons k ks ih =>
    intro index
    have hc : (index : Int) % 100 < 100 := by omega
    rw [selectedFrom_cons, if_pos hc, ih]

theorem sampledPage_hundred (keys : List String) (usage : List Int)
    (h : usage.length = keys.length) : sampledPage 100 keys usage = ⟨keys, usage⟩ := by
  simp [sampledPage, selectedKeys, selectedFrom_hundred, ← h, measuredSizes_exact]

theorem sum_zip_mulInt64_one (keys : List String) :
    ∀ sizes : List Int, sizes.length = keys.length → (∀ s ∈ sizes, isInt64 s) →
      ((keys.zip sizes).map (fun ks => mulInt64 ks.2 1)).sum = sizes.sum := by
  induction keys with
  | nil =>
    intro sizes h _
    have : sizes = [] := List.length_eq_zero.mp (by simpa using h)
    simp [this]
  | cons k ks ih =>
    intro sizes h hs
    cases sizes with
    | nil => simp at h
    | cons s ss =>
      have h1 : mulInt64 s 1 = s := by
        have := mulInt64_exact s 1 (by simpa using hs s (List.mem_cons_self _ _))
        simpa using this
      simp only [List.zip_cons_cons, List.map_cons, List.sum_cons, h1]
      rw [ih ss (by simpa using h) (fun x hx => hs x (List.mem_cons_of_mem _ hx))]

/-- C4 (full sample). With `SamplePerc = 100`, for every sequence of pages served
without a round-trip error up to the page that returns the cursor `0`, with one
`int64` size per key, the goroutine closes the channel after sending every page
with all its keys and their sizes, the extrapolation factor is 1, `Scan` ends
without a fault, and the sums of the `BytesSize` and `KeysCount` values it passes
to `Add` are the sum of the measured sizes and the number of keys scanned.
Whenever the channel can be allocated, the run of `ScanKeys` is that run of its
goroutine. -/
theorem Scan_full_sample_totals (options : ScanOptions) (dbsize : Except String Int)
    (front : List ScannedPage) (last : ScannedPage)
    (h : options.SamplePerc = 100)
    (hfront : ∀ p ∈ front, p.next ≠ "0") (hlast : last.next = "0")
    (hok : ∀ p ∈ front ++ [last],
      p.usageErr = none ∧ p.usage.length = p.keys.length ∧ ∀ s ∈ p.usage, isInt64 s) :
    (scanGoroutine options ((front ++ [last]).map ScannedPage.reply)).outcome = Outcome.closed ∧
    emitted (scanGoroutine options ((front ++ [last]).map ScannedPage.reply)).events =
      (front ++ [last]).map (fun p => ⟨p.keys, p.usage⟩) ∧
    Int.tdiv 100 options.SamplePerc = 1 ∧
    (Scan options dbsize
          (emitted (scanGoroutine options ((front ++ [last]).map ScannedPage.reply)).events)).fault =
      none ∧
    rootTotal Param.BytesSize
        (Scan options dbsize
          (emitted (scanGoroutine options ((front ++ [last]).map ScannedPage.reply)).events)).calls =
      ((front ++ [last]).map (fun p => p.usage.sum)).sum ∧
    rootTotal Param.KeysCount
        (Scan options dbsize
          (emitted (scanGoroutine options ((front ++ [last]).map ScannedPage.reply)).events)).calls =
      (((front ++ [last]).map (fun p => p.keys.length)).sum : Nat) ∧
    (0 ≤ wrapInt64 (options.ScanCount * 2) →
      ScanKeys options ((front ++ [last]).map ScannedPage.reply) =
        scanGoroutine options ((front ++ [last]).map ScannedPage.reply)) := by
  have h1 : 1 ≤ options.SamplePerc := by omega
  have h100 : options.SamplePerc ≤ 100 := by omega
  have hne : options.SamplePerc ≠ 0 := by omega
  have hf : Int.tdiv 100 options.SamplePerc = 1 := by rw [h]; rfl
  have hstore : (front ++ [last]).map ScannedPage.reply =
      front.map ScannedPage.reply ++ last.reply :: [] := by simp
  obtain ⟨w1, _, w3, _⟩ := scanLoop_walk options h1 h100 last [] hlast front "0" hfront
  rw [← hstore] at w1 w3
  have hem : emitted (scanGoroutine options ((front ++ [last]).map ScannedPage.reply)).events =
      (front ++ [last]).map (fun p => ⟨p.keys, p.usage⟩) := by
    unfold scanGoroutine
    rw [w3]
    apply List.map_congr_left
    intro p hp
    rw [h]
    exact sampledPage_hundred p.keys p.usage (hok p hp).2.1
  have hshape : ∀ b ∈ (front ++ [last]).map (fun p => (⟨p.keys, p.usage⟩ : BulkKeyInfo)),
      b.Keys.length ≤ b.Sizes.length := by
    intro b hb
    obtain ⟨p, hp, rfl⟩ := List.mem_map.mp hb
    exact le_of_eq (hok p hp).2.1.symm
  obtain ⟨p1, _⟩ := scanPages_calls options hne _ hshape
  obtain ⟨t1, t2⟩ := rootTotal_Scan options dbsize hne _ hshape
  refine ⟨w1, hem, hf, ?_, ?_, ?_, ScanKeys_of_capacity options _⟩
  · rw [hem, Scan_fault, p1]
  · rw [hem]
    rw [t1, hf, List.map_map]
    congr 1
    apply List.map_congr_left
    intro p hp
    exact sum_zip_mulInt64_one p.keys p.usage (hok p hp).2.1 (hok p hp).2.2
  · rw [hem]
    rw [t2, hf, List.map_map]
    simp only [Function.comp_def, mul_one]
    generalize front ++ [last] = pages
    induction pages with
    | nil => rfl
    | cons p ps ih => simp [ih]

/-- Witness for C4: the keys `a:b:x` = 100 and `a:b:y` = 50 on a first page and
`a:c:z` = 25 on the last give 175 bytes and 3 keys at the root. -/
theorem Scan_full_sample_totals_witness :
    rootTotal Param.BytesSize
        (Scan ⟨"*", 10, 0, 100⟩ (.ok 3) (emitted (scanGoroutine ⟨"*", 10, 0, 100⟩
          [⟨.ok ("17", ["a:b:x", "a:b:y"]), [100, 50], none⟩,
           ⟨.ok ("0", ["a:c:z"]), [25], none⟩]).events)).calls = 175 ∧
    rootTotal Param.KeysCount
        (Scan ⟨"*", 10, 0, 100⟩ (.ok 3) (emitted (scanGoroutine ⟨"*", 10, 0, 100⟩
          [⟨.ok ("17", ["a:b:x", "a:b:y"]), [100, 50], none⟩,
           ⟨.ok ("0", ["a:c:z"]), [25], none⟩]).events)).calls = 3 :=
  have w := Scan_full_sample_totals ⟨"*", 10, 0, 100⟩ (.ok 3)
    [⟨"17", ["a:b:x", "a:b:y"], [100, 50], none⟩] ⟨"0", ["a:c:z"], [25], none⟩
    rfl (by decide) rfl (by decide)
  ⟨w.2.2.2.2.1, w.2.2.2.2.2.1⟩

/-! ## Extrapolated key count on full blocks -/

theorem selectedFrom_append (sp : Int) (xs ys : List String) (i : Nat) :
    selectedFrom sp i (xs ++ ys) = selectedFrom sp i xs ++ selectedFrom sp (i + xs.length) ys := by
  simp [selectedFrom, List.enumFrom_append, List.filter_append]

/-- Inside one block of 100 positions, the selected keys are those at offsets
below `SamplePerc`. -/
theorem selectedFrom_block_length (sp : Int) (a : Nat) (ks : List String) :
    ∀ r : Nat, r + ks.length ≤ 100 →
      (selectedFrom sp (100 * a + r) ks).length =
        min (r + ks.length) sp.toNat - min r sp.toNat := by
  induction ks with
  | nil => intro r _; simp [selectedFrom_nil]
  | cons k ks ih =>
    intro r h
    simp only [List.length_cons] at h
    have ih' := ih (r + 1) (by omega)
    rw [show 100 * a + (r + 1) = 100 * a + r + 1 from rfl] at ih'
    rw [selectedFrom_cons]
    by_cases hc : ((100 * a + r : Nat) : Int) % 100 < sp
    · rw [if_pos hc, List.length_cons, ih']
      simp only [List.length_cons]
      omega
    · rw [if_neg hc, ih']
      simp only [List.length_cons]
      omega

theorem selectedFrom_blocks_length (sp : Int) (q : Nat) :
    ∀ (a : Nat) (keys : List String), keys.length = 100 * q → sp ≤ 100 →
      (selectedFrom sp (100 * a) keys).length = q * sp.toNat := by
  induction q with
  | zero =>
    intro a keys h _
    have : keys = [] := List.length_eq_zero.mp (by simpa using h)
    simp [this, selectedFrom_nil]
  | succ q ih =>
    intro a keys h hsp
    have hsplit : keys = keys.take 100 ++ keys.drop 100 := (List.take_append_drop 100 keys).symm
    have ht : (keys.take 100).length = 100 := by simp; omega
    have hd : (keys.drop 100).length = 100 * q := by simp; omega
    rw [hsplit, selectedFrom_append, List.length_append, ht]
    have hb := selectedFrom_block_length sp a (keys.take 100) 0 (by omega)
    rw [Nat.add_zero] at hb
    rw [hb, ht, show 100 * a + 100 = 100 * (a + 1) by ring, ih (a + 1) _ hd hsp]
    have : min (0 + 100) sp.toNat - min 0 sp.toNat = sp.toNat := by omega
    rw [this]
    ring

/-- C10 (extrapolated key count on full blocks). For `1 ≤ SamplePerc ≤ 100` and a
page whose length `n` is a positive multiple of 100, the page sent holds
`(n / 100) * SamplePerc` keys, the `KeysCount` values `Scan` adds for it sum to
that number times `100 / SamplePerc` (integer quotient), this sum is at most `n`,
and it equals `n` exactly when `SamplePerc` divides 100. -/
theorem Scan_keysCount_on_full_blocks (options : ScanOptions) (cur next : String)
    (keys : List String) (reply : PageReply) (rest : List PageReply)
    (dbsize : Except String Int) (q : Nat)
    (h1 : 1 ≤ options.SamplePerc) (h100 : options.SamplePerc ≤ 100)
    (hq : 0 < q) (hlen : keys.length = 100 * q)
    (hscan : reply.scan = .ok (next, keys)) :
    ∃ b : BulkKeyInfo,
      emitted (scanLoop options cur (reply :: rest)).events =
        b :: (if next = "0" then [] else emitted (scanLoop options next rest).events) ∧
      (b.Keys.length : Int) = q * options.SamplePerc ∧
      rootTotal Param.KeysCount (Scan options dbsize [b]).calls =
        (b.Keys.length : Int) * (100 / options.SamplePerc) ∧
      rootTotal Param.KeysCount (Scan options dbsize [b]).calls ≤ (keys.length : Int) ∧
      (rootTotal Param.KeysCount (Scan options dbsize [b]).calls = (keys.length : Int) ↔
        options.SamplePerc ∣ 100) := by
  have hne : options.SamplePerc ≠ 0 := by omega
  have hcount : ((sampledPage options.SamplePerc keys reply.usage).Keys.length : Int) =
      q * options.SamplePerc := by
    have := selectedFrom_blocks_length options.SamplePerc q 0 keys hlen h100
    simp only [sampledPage, selectedKeys]
    rw [Nat.mul_zero] at this
    rw [this]
    push_cast
    rw [Int.toNat_of_nonneg (by omega)]
  have hshape : ∀ p ∈ [sampledPage options.SamplePerc keys reply.usage],
      p.Keys.length ≤ p.Sizes.length := by
    intro p hp
    rw [List.mem_singleton.mp hp]
    exact le_of_eq (sampledPage_shape _ _ _)
  have htotal : rootTotal Param.KeysCount
      (Scan options dbsize [sampledPage options.SamplePerc keys reply.usage]).calls =
      ((sampledPage options.SamplePerc keys reply.usage).Keys.length : Int) *
        (100 / options.SamplePerc) := by
    rw [(rootTotal_Scan options dbsize hne _ hshape).2, tdiv_samplePerc _ h1]
    simp
  have hmul : options.SamplePerc * (100 / options.SamplePerc) ≤ 100 :=
    Int.mul_ediv_self_le hne
  have hqpos : (0 : Int) < q := by exact_mod_cast hq
  refine ⟨sampledPage options.SamplePerc keys reply.usage, ?_, hcount, htotal, ?_, ?_⟩
  · rw [scanLoop_valid_step options cur next keys reply rest h1 h100 hscan]
    by_cases hn : next = "0"
    · simp [hn, emitted_pageEvents]
    · simp [hn, ScanKeysRun.after, emitted_append, emitted_pageEvents, emitted_throttleEvents]
  · rw [htotal, hcount, hlen]
    push_cast
    nlinarith
  · rw [htotal, hcount, hlen]
    push_cast
    constructor
    · intro heq
      have : options.SamplePerc * (100 / options.SamplePerc) = 100 := by
        have h' : (q : Int) * (options.SamplePerc * (100 / options.SamplePerc)) = q * 100 := by
          linarith
        exact mul_left_cancel₀ (ne_of_gt hqpos) h'
      exact Dvd.intro _ this
    · intro hdvd
      have : options.SamplePerc * (100 / options.SamplePerc) = 100 :=
        Int.mul_ediv_cancel' hdvd
      calc (q : Int) * options.SamplePerc * (100 / options.SamplePerc)
          = q * (options.SamplePerc * (100 / options.SamplePerc)) := by ring
        _ = 100 * q := by rw [this]; ring

/-- Witness for C10: `SamplePerc = 30` on a page of 100 keys: 30 keys, each
counted 3 times, 90 keys in total. -/
theorem Scan_keysCount_on_full_blocks_witness :
    ∃ b : BulkKeyInfo,
      emitted (scanLoop ⟨"*", 100, 0, 30⟩ "0"
        (⟨.ok ("0", List.replicate 100 "k"), List.replicate 30 8, none⟩ :: [])).events =
        b :: (if "0" = "0" then [] else emitted (scanLoop ⟨"*", 100, 0, 30⟩ "0" []).events) ∧
      (b.Keys.length : Int) = (1 : Nat) * (30 : Int) ∧
      rootTotal Param.KeysCount (Scan ⟨"*", 100, 0, 30⟩ (.ok 100) [b]).calls =
        (b.Keys.length : Int) * (100 / (30 : Int)) ∧
      rootTotal Param.KeysCount (Scan ⟨"*", 100, 0, 30⟩ (.ok 100) [b]).calls ≤
        ((List.replicate 100 "k").length : Int) ∧
      (rootTotal Param.KeysCount (Scan ⟨"*", 100, 0, 30⟩ (.ok 100) [b]).calls =
        ((List.replicate 100 "k").length : Int) ↔ (30 : Int) ∣ 100) :=
  Scan_keysCount_on_full_blocks ⟨"*", 100, 0, 30⟩ "0" "0" (List.replicate 100 "k")
    ⟨.ok ("0", List.replicate 100 "k"), List.replicate 30 8, none⟩ [] (.ok 100) 1
    (by decide) (by decide) (by decide) (by simp) rfl

/-! ## Shape of the pages sent, for arbitrary options -/

theorem sampleLoop_shape (sp : Int) (keys : List String) :
    ∀ (index : Nat) (st st' : SampleState), sampleLoop sp keys index st = .ok st' →
      st.keyIndex ≤ st.Keys.length →
      st'.keyIndex ≤ st'.Keys.length ∧ st'.Keys.length = st.Keys.length := by
  induction keys with
  | nil =>
    intro index st st' h hle
    simp only [sampleLoop, Except.ok.injEq] at h
    rw [← h]
    exact ⟨hle, rfl⟩
  | cons k ks ih =>
    intro index st st' h hle
    unfold sampleLoop at h
    split at h
    · split at h
      · rename_i hlt
        obtain ⟨a, b⟩ := ih _ _ _ h (by simpa using hlt)
        exact ⟨a, by simpa using b⟩
      · simp at h
    · exact ih _ _ _ h hle

theorem samplePage_shape (sp : Int) (keys : List String) (st : SampleState) (bufLen : Nat)
    (h : samplePage sp keys = .ok (st, bufLen)) :
    st.keyIndex ≤ bufLen ∧ st.Keys.length = bufLen := by
  unfold samplePage at h
  split at h
  · simp at h
  · simp only at h
    split at h
    · simp at h
    · split at h
      · simp at h
      · rename_i st0 hst
        simp only [Except.ok.injEq, Prod.mk.injEq] at h
        obtain ⟨a, b⟩ := sampleLoop_shape sp keys 0 _ st0 hst (by simp)
        rw [← h.1, ← h.2]
        simp only [List.length_replicate] at a b
        exact ⟨by omega, b⟩

theorem applyUsage_length (cmds : List (String × Nat)) (usage buf : List Int) :
    (applyUsage cmds usage buf).length = buf.length := by
  unfold applyUsage
  generalize cmds.zip usage = writes
  induction writes generalizing buf with
  | nil => rfl
  | cons w ws ih => simp [List.foldl_cons, ih]

theorem pageResult_shape (st : SampleState) (bufLen : Nat) (usage : List Int)
    (h2 : st.Keys.length = bufLen) :
    (pageResult st bufLen usage).Keys.length = (pageResult st bufLen usage).Sizes.length := by
  simp [pageResult, applyUsage_length, h2]

/-- Every page the goroutine sends has as many `Sizes` as `Keys`, whatever the
options and the replies of the store. -/
theorem scanLoop_emitted_shape (options : ScanOptions) (store : List PageReply) :
    ∀ cur, ∀ b ∈ emitted (scanLoop options cur store).events,
      b.Keys.length = b.Sizes.length := by
  induction store with
  | nil => intro cur; simp [scanLoop, emitted]
  | cons reply rest ih =>
    intro cur
    cases hs : reply.scan with
    | error msg =>
      rw [scanLoop_scan_error options cur msg reply rest hs]
      simp [emitted]
    | ok page =>
      obtain ⟨next, keys⟩ := page
      cases hp : samplePage options.SamplePerc keys with
      | error f =>
        rw [scanLoop_fault_step options cur next keys reply rest f hs hp]
        simp [emitted]
      | ok res =>
        obtain ⟨st, bufLen⟩ := res
        obtain ⟨_, s2⟩ := samplePage_shape _ keys st bufLen hp
        have hshape := pageResult_shape st bufLen reply.usage s2
        rw [scanLoop_ok_step options cur next keys reply rest st bufLen hs hp]
        by_cases hn : next = "0"
        · simp [hn, emitted_stepEvents, hshape]
        · simp only [hn, if_false, ScanKeysRun.after, emitted_append, emitted_stepEvents,
            emitted_throttleEvents, List.append_nil]
          intro b hb
          simp only [List.singleton_append, List.mem_cons] at hb
          rcases hb with hb | hb
          · rw [hb]; exact hshape
          · exact ih next b hb

/-! ## Pages sent outside the valid range of `SamplePerc` -/

end RedisInventory
